import Mathlib

/-!
Verification of the DynaMix mixin composition and message-dispatch runtime.

The development shallowly embeds the parts of the repository that the
properties below are about:

* the configuration constants from the test configuration header
  (src/unnamed/part_000, the `DYNAMIX_MAX_MIXINS` / `DYNAMIX_MAX_MESSAGES`
  block);
* the allocator interface declared in src/include/dynamix/allocators.hpp:
  the helper computations `calculate_mem_size_for_mixin` and
  `calculate_mixin_offset`, the alloc/dealloc call discipline, and the
  feature-list entry function `dynamix::allocator<CusomAllocator>()`;
* the message-dispatch engine, the object mutation protocol and the
  registry, whose implementations are not part of the given sources and
  are therefore modelled from the specification (each such definition
  carries a doc comment saying so).

Machine addresses and sizes are modelled as `Nat`; message results as `Int`
(the tested messages return C++ `int` values far from any overflow
boundary, and the combination policy in the tests is integer sum).
-/

namespace Dynamix

/-- Configuration constant from src/unnamed/part_000:
`#define DYNAMIX_MAX_MIXINS 256`. -/
def DYNAMIX_MAX_MIXINS : Nat := 256

/-- Configuration constant from src/unnamed/part_000:
`#define DYNAMIX_MAX_MESSAGES 512`. -/
def DYNAMIX_MAX_MESSAGES : Nat := 512

/-- Size of a pointer (`sizeof(object*)`) on the modelled platform: the
room reserved in front of every mixin instance for the back-reference to
the owning object. -/
def ptrSize : Nat := 8

/-- Error taxonomy of the runtime, from the specification's error
handling design. -/
inductive DynErr where
  | unknownMixin
  | mixinNotPresent
  | unsupportedMessage
  | ambiguousMessage
  | allocationFailure
  deriving DecidableEq, Repr

/-! ## Message dispatch model

Modelled from the spec: the dispatch engine implementation is not among
the given sources (part_000 only calls it through `dl_a_multicast<sum>` and
`dl_a_mixin_specific`).  A mixin is identified by an integer and carries
the table of messages it implements, each with the `Int` result its
implementation returns when invoked.  An object holds its mixins in
attachment order. -/

structure Mixin where
  id : Nat
  impl : List (Nat × Int)
  deriving DecidableEq, Repr

/-- Whether mixin `m` implements message `msg`. -/
def Mixin.implements (m : Mixin) (msg : Nat) : Bool :=
  (m.impl.lookup msg).isSome

/-- Invoke message `msg` on mixin `m` (meaningful only when
`m.implements msg`). -/
def Mixin.invoke (m : Mixin) (msg : Nat) : Int :=
  (m.impl.lookup msg).getD 0

/-- An object, holding its attached mixins in attachment order. -/
structure Object where
  mixins : List Mixin
  deriving DecidableEq, Repr

/-- Modelled from the spec: the dispatch engine resolves the implementers
of a message among the object's attached mixins, in attachment order. -/
def implementers (o : Object) (msg : Nat) : List Mixin :=
  o.mixins.filter (fun m => m.implements msg)

/-- A result-combination policy for multicast dispatch: an identity value
and a binary combination, e.g. sum of numeric results. -/
structure Combinator where
  identity : Int
  combine : Int → Int → Int

/-- The `sum` combination policy used by the tests in part_000
(`dynamix::combinators`). -/
def sumCombinator : Combinator :=
  ⟨0, fun a b => a + b⟩

/-- Modelled from the spec: multicast dispatch invokes every implementer
of the message among the object's attached mixins, in attachment order,
aggregating the results with the caller-supplied combination policy.  No
implementer yields the policy's identity value. -/
def multicast (o : Object) (msg : Nat) (c : Combinator) : Int :=
  (implementers o msg).foldl (fun acc m => c.combine acc (m.invoke msg)) c.identity

/-- Modelled from the spec: unicast dispatch requires exactly one
implementer; zero implementers is an unsupported-message failure and more
than one is an ambiguous-message failure. -/
def unicast (o : Object) (msg : Nat) : Except DynErr Int :=
  match implementers o msg with
  | [] => .error .unsupportedMessage
  | [m] => .ok (m.invoke msg)
  | _ => .error .ambiguousMessage

/-- Attach a mixin at the end of the attachment order
(`mutate(o).add<M>()`). -/
def attach (o : Object) (m : Mixin) : Object :=
  ⟨o.mixins ++ [m]⟩

/-- Detach the mixin with the given identifier (`mutate(o).remove<M>()`). -/
def detach (o : Object) (id : Nat) : Object :=
  ⟨o.mixins.filter (fun m => m.id ≠ id)⟩

/-! ### The concrete sum scenario of the tests (part_000 / spec §8)

`exe_mixin`'s `dl_a_multicast` returns 1; the two library mixins
contribute 11 and 12 (the "lib" test checks 1, then 12, then 24). -/

/-- The `sum` message identifier of the end-to-end scenario. -/
def sumMsg : Nat := 0

/-- Mixin A of the end-to-end scenario: its `sum` implementation returns 1
(`exe_mixin::dl_a_multicast`). -/
def mixinA : Mixin := ⟨0, [(sumMsg, 1)]⟩

/-- Mixin B of the end-to-end scenario: its `sum` implementation
returns 11. -/
def mixinB : Mixin := ⟨1, [(sumMsg, 11)]⟩

/-- Mixin C of the end-to-end scenario: its `sum` implementation
returns 12. -/
def mixinC : Mixin := ⟨2, [(sumMsg, 12)]⟩

/-- Sum of the contributions of the currently attached implementers of a
message: the reference value the multicast result is compared against. -/
def contributionSum (o : Object) (msg : Nat) : Int :=
  ((implementers o msg).map (fun m => m.invoke msg)).sum

/-- The object states of the end-to-end scenario: A, then A+B, then A+B+C,
then A+C (B detached). -/
def scenario1 : Object := attach ⟨[]⟩ mixinA

def scenario2 : Object := attach scenario1 mixinB

def scenario3 : Object := attach scenario2 mixinC

def scenario4 : Object := detach scenario3 mixinB.id

/-! ## Allocator helper computations

`calculate_mem_size_for_mixin` and `calculate_mixin_offset` are declared
in src/include/dynamix/allocators.hpp; their bodies live in a translation
unit not among the given sources, so they are modelled from the spec:
the offset is the smallest one that satisfies the mixin's alignment while
leaving a pointer-sized room in front for the back-reference to the
owning object, and the size is the total buffer size that fits the mixin
at that offset for any buffer address. -/

/-- Round `x` up to the next multiple of `a`. -/
def alignUp (x a : Nat) : Nat :=
  (x + a - 1) / a * a

/-- Modelled from the spec: `domain_allocator::calculate_mixin_offset`
(allocators.hpp) — the offset of the mixin within a buffer starting at
address `buffer`, satisfying `mixin_alignment` and leaving room in front
for a pointer to the owning object. -/
def calculate_mixin_offset (buffer : Nat) (mixin_alignment : Nat) : Nat :=
  alignUp (buffer + ptrSize) mixin_alignment - buffer

/-- Modelled from the spec: `domain_allocator::calculate_mem_size_for_mixin`
(allocators.hpp) — a buffer size sufficient for the mixin plus the leading
back-pointer with correct padding, for any buffer address. -/
def calculate_mem_size_for_mixin (mixin_size mixin_alignment : Nat) : Nat :=
  mixin_size + ptrSize + (mixin_alignment - 1)

/-! ## Registry model

Modelled from the spec: the process-wide mixin registry maps each mixin
identifier to its size, alignment and message-implementation list, and
records which module supplied the entry; the message registry records
each registered message identifier and its supplying module. -/

structure RegMixinEntry where
  id : Nat
  moduleId : Nat
  size : Nat
  alignment : Nat
  impl : List (Nat × Int)
  deriving DecidableEq, Repr

structure RegMsgEntry where
  id : Nat
  moduleId : Nat
  deriving DecidableEq, Repr

structure Registry where
  mixins : List RegMixinEntry
  messages : List RegMsgEntry
  deriving DecidableEq, Repr

/-- Look up the registry entry for a mixin identifier. -/
def lookupMixin (reg : Registry) (id : Nat) : Option RegMixinEntry :=
  reg.mixins.find? (fun e => e.id == id)

/-- Modelled from the spec: a lookup of an unregistered mixin identifier
reports the unknown-mixin condition. -/
def lookupMixinE (reg : Registry) (id : Nat) : Except DynErr RegMixinEntry :=
  match lookupMixin reg id with
  | none => .error .unknownMixin
  | some e => .ok e

/-- Whether a message identifier is currently registered. -/
def messageRegistered (reg : Registry) (msg : Nat) : Bool :=
  (reg.messages.find? (fun e => e.id == msg)).isSome

/-- Modelled from the spec: dispatch goes through the registry — a call to
a message identifier that is (no longer) registered reports the
unsupported-message condition; otherwise unicast dispatch on the object
proceeds as usual. -/
def unicastR (reg : Registry) (o : Object) (msg : Nat) : Except DynErr Int :=
  if messageRegistered reg msg then unicast o msg else .error .unsupportedMessage

/-- Modelled from the spec: when a module is unloaded, its mixins and
messages are retracted from the registry; entries from other modules are
kept. -/
def unloadModule (reg : Registry) (m : Nat) : Registry :=
  ⟨reg.mixins.filter (fun e => e.moduleId != m),
   reg.messages.filter (fun e => e.moduleId != m)⟩

/-- Modelled from the spec: module-load-time registration of one mixin.
Identifiers are assigned densely so they can index the fixed-size lookup
tables; registration fails once the configured maximum mixin count is
reached. -/
def registerMixinEntry (reg : Registry) (moduleId size alignment : Nat)
    (impl : List (Nat × Int)) : Option Registry :=
  if reg.mixins.length < DYNAMIX_MAX_MIXINS then
    some ⟨reg.mixins ++ [⟨reg.mixins.length, moduleId, size, alignment, impl⟩],
          reg.messages⟩
  else none

/-- Modelled from the spec: module-load-time registration of one message,
bounded by the configured maximum message count. -/
def registerMessageEntry (reg : Registry) (moduleId : Nat) : Option Registry :=
  if reg.messages.length < DYNAMIX_MAX_MESSAGES then
    some ⟨reg.mixins, reg.messages ++ [⟨reg.messages.length, moduleId⟩]⟩
  else none

/-- The registries the runtime can actually produce: starting empty and
evolving by mixin registration, message registration and module unload. -/
inductive Reachable : Registry → Prop where
  | empty : Reachable ⟨[], []⟩
  | regMixin {r r' : Registry} {m s a : Nat} {impl : List (Nat × Int)} :
      Reachable r → registerMixinEntry r m s a impl = some r' → Reachable r'
  | regMsg {r r' : Registry} {m : Nat} :
      Reachable r → registerMessageEntry r m = some r' → Reachable r'
  | unload {r : Registry} {m : Nat} :
      Reachable r → Reachable (unloadModule r m)

/-- A two-module example registry for concrete witnesses: module 1
supplies mixin id 0 and message id 0, module 2 supplies mixin id 1 and
message id 1. -/
def regExample : Registry :=
  ⟨[⟨0, 1, 16, 8, [(0, 1)]⟩, ⟨1, 2, 24, 8, [(1, 2)]⟩],
   [⟨0, 1⟩, ⟨1, 2⟩]⟩

/-- The registry produced by registering one mixin and one message of
module 1 into the empty registry. -/
def regSmall : Registry :=
  ⟨[⟨0, 1, 16, 8, []⟩], [⟨0, 1⟩]⟩

/-! ## Object mutation model with allocation events

Modelled from the spec: the object mutation protocol (spec §4.3) is not
among the given sources.  Each attached mixin records the buffer, offset,
size and alignment its storage was allocated with and the back-pointer
written in front of the mixin instance; every call the mutation protocol
makes into the allocation strategy (`alloc_mixin_data`,
`dealloc_mixin_data`, `alloc_mixin`, `dealloc_mixin` of
src/include/dynamix/allocators.hpp) is recorded as an event in a trace.
Buffer addresses handed out by the strategy are inputs of each
operation. -/

/-- One entry of the object's mixin-data array. -/
structure MixinData where
  id : Nat
  buffer : Nat
  offset : Nat
  size : Nat
  alignment : Nat
  backPtr : Nat
  deriving DecidableEq, Repr

/-- The object of the mutation model: its own address (the value written
as back-pointer), the address of its current mixin-data array, and its
attached mixins in attachment order. -/
structure ObjectState where
  objAddr : Nat
  arrBuf : Nat
  mixins : List MixinData
  deriving DecidableEq, Repr

/-- One call into the allocation strategy. -/
inductive Event where
  | allocData (buf count : Nat)
  | deallocData (buf count : Nat)
  | allocMixin (buf off id size alignment : Nat)
  | deallocMixin (buf off id size alignment : Nat)
  deriving DecidableEq, Repr

/-- An object together with the trace of strategy calls made on its
behalf. -/
structure World where
  obj : ObjectState
  trace : List Event
  deriving DecidableEq, Repr

/-- A fresh object: no mixins, no strategy calls yet. -/
def freshWorld (objAddr : Nat) : World :=
  ⟨⟨objAddr, 0, []⟩, []⟩

/-- The allocation call a deallocation call must be matched by: same
buffer and count for the mixin-data array, same buffer, offset, id, size
and alignment for a mixin instance. -/
def matchingAlloc : Event → Option Event
  | .deallocData b c => some (.allocData b c)
  | .deallocMixin b o i s a => some (.allocMixin b o i s a)
  | _ => none

/-- Whether one event is properly matched against the events before it:
an allocation call needs no match; a deallocation call must repeat an
earlier allocation call's arguments exactly. -/
def matchOk (past : List Event) (ev : Event) : Bool :=
  match matchingAlloc ev with
  | none => true
  | some e => past.contains e

/-- Every deallocation call in the list is preceded (within `past` or
earlier in the list) by an allocation call with identical arguments. -/
def matchedFrom (past : List Event) : List Event → Bool
  | [] => true
  | ev :: rest => matchOk past ev && matchedFrom (past ++ [ev]) rest

/-- Every deallocation call in the trace repeats the arguments of an
earlier allocation call. -/
def traceMatched (tr : List Event) : Bool :=
  matchedFrom [] tr

/-- One mutation request: add carries the array buffer and mixin buffer
the strategy would return, remove carries the array buffer for the shrunk
array. -/
inductive MutOp where
  | add (id arrBuf mixBuf : Nat)
  | remove (id arrBuf : Nat)
  deriving DecidableEq, Repr

/-- Remove the first entry with the given mixin identifier. -/
def removeFirst (id : Nat) : List MixinData → List MixinData
  | [] => []
  | e :: es => if e.id = id then es else e :: removeFirst id es

/-- Modelled from the spec (§4.3, add mixin): look the mixin up in the
registry — an unregistered identifier fails with unknown-mixin and leaves
the object untouched; otherwise allocate the larger mixin-data array,
allocate the mixin's storage at the offset the helper computation yields,
write the back-pointer, append the entry, and release the old array. -/
def addMixinOp (reg : Registry) (w : World) (id arrBuf mixBuf : Nat) :
    Option DynErr × World :=
  match lookupMixin reg id with
  | none => (some .unknownMixin, w)
  | some entry =>
    let off := calculate_mixin_offset mixBuf entry.alignment
    let newData : MixinData :=
      ⟨id, mixBuf, off, entry.size, entry.alignment, w.obj.objAddr⟩
    let oldLen := w.obj.mixins.length
    let evs :=
      [Event.allocData arrBuf (oldLen + 1),
       Event.allocMixin mixBuf off id entry.size entry.alignment] ++
      (if oldLen = 0 then [] else [Event.deallocData w.obj.arrBuf oldLen])
    (none, ⟨⟨w.obj.objAddr, arrBuf, w.obj.mixins ++ [newData]⟩, w.trace ++ evs⟩)

/-- Modelled from the spec (§4.3, remove mixin): locate the entry by
identifier — a mixin not attached fails with mixin-not-present and leaves
the object untouched; otherwise destroy the mixin instance, deallocate
its storage with the stored arguments, build the shrunk array, swap it
in, and release the old array. -/
def removeMixinOp (w : World) (id arrBuf : Nat) : Option DynErr × World :=
  match w.obj.mixins.find? (fun e => e.id == id) with
  | none => (some .mixinNotPresent, w)
  | some e =>
    let newMixins := removeFirst id w.obj.mixins
    let oldLen := w.obj.mixins.length
    let evs :=
      [Event.deallocMixin e.buffer e.offset e.id e.size e.alignment] ++
      (if newMixins.length = 0 then [] else [Event.allocData arrBuf newMixins.length]) ++
      [Event.deallocData w.obj.arrBuf oldLen]
    (none, ⟨⟨w.obj.objAddr, arrBuf, newMixins⟩, w.trace ++ evs⟩)

/-- Apply one mutation request. -/
def applyOp (reg : Registry) (w : World) : MutOp → Option DynErr × World
  | .add id arrBuf mixBuf => addMixinOp reg w id arrBuf mixBuf
  | .remove id arrBuf => removeMixinOp w id arrBuf

/-- Run a sequence of mutation requests, stopping at the first failure. -/
def runOps (reg : Registry) (w : World) : List MutOp → Option DynErr × World
  | [] => (none, w)
  | op :: ops =>
    match applyOp reg w op with
    | (some e, w') => (some e, w')
    | (none, w') => runOps reg w' ops

/-- Number of add requests in a sequence. -/
def countAdds : List MutOp → Nat
  | [] => 0
  | .add _ _ _ :: ops => countAdds ops + 1
  | .remove _ _ :: ops => countAdds ops

/-- Number of remove requests in a sequence. -/
def countRemoves : List MutOp → Nat
  | [] => 0
  | .add _ _ _ :: ops => countRemoves ops
  | .remove _ _ :: ops => countRemoves ops + 1

/-- The per-entry storage invariant: positive declared alignment, the
mixin's address satisfies that alignment, a pointer-sized room lies in
front of the mixin for the back-pointer, and the back-pointer holds the
owning object's address. -/
def goodEntry (objAddr : Nat) (e : MixinData) : Prop :=
  0 < e.alignment ∧
  (e.buffer + e.offset) % e.alignment = 0 ∧
  ptrSize ≤ e.offset ∧
  e.backPtr = objAddr

/-! ## The per-type allocator singleton

`dynamix::allocator<CusomAllocator>()` (allocators.hpp) holds a C++
function-local static variable: it is initialized on the first call for
each template instantiation (one per allocator type) and every later call
returns a reference to that same object.  The embedding keeps a process
state mapping each type to its singleton instance; distinct instances are
identified by distinct `Nat` tags. -/

structure ProcState where
  instances : List (String × Nat)
  nextId : Nat
  deriving DecidableEq, Repr

/-- Shallow embedding of `dynamix::allocator<CusomAllocator>()`: return
the type's instance if it exists, otherwise create it (the first call
initializes the static). -/
def allocator (ty : String) (s : ProcState) : Nat × ProcState :=
  match s.instances.lookup ty with
  | some i => (i, s)
  | none => (s.nextId, ⟨s.instances ++ [(ty, s.nextId)], s.nextId + 1⟩)

/-- Run a sequence of `allocator` calls for arbitrary types. -/
def runCalls (tys : List String) (s : ProcState) : ProcState :=
  tys.foldl (fun st ty => (allocator ty st).2) s

/-! ## Theorems -/

theorem foldl_combine_eq_foldl_map (c : Combinator) (l : List Mixin) (msg : Nat)
    (acc : Int) :
    l.foldl (fun a m => c.combine a (m.invoke msg)) acc
      = (l.map (fun m => m.invoke msg)).foldl c.combine acc := by
  induction l generalizing acc with
  | nil => rfl
  | cons x xs ih => simp [List.foldl, ih]

/-- Multicast with the sum policy computes exactly the sum of the
implementers' contributions. -/
theorem multicast_sum_eq_contributionSum (o : Object) (msg : Nat) :
    multicast o msg sumCombinator = contributionSum o msg := by
  unfold multicast contributionSum
  rw [foldl_combine_eq_foldl_map]
  induction (implementers o msg).map (fun m => m.invoke msg) using
      List.reverseRecOn with
  | nil => rfl
  | append_singleton xs x ih =>
      simp only [sumCombinator, List.foldl_append, List.sum_append] at ih ⊢
      simp [ih]

/-- C1: multicast dispatch with zero attached implementers returns the
aggregation policy's identity value, and in general returns the
policy-combination of all the implementers' results, taken in attachment
order (the left fold over the attachment-ordered implementer list). -/
theorem C1_multicast_identity_and_order (o : Object) (msg : Nat) (c : Combinator) :
    (implementers o msg = [] → multicast o msg c = c.identity) ∧
    multicast o msg c
      = ((implementers o msg).map (fun m => m.invoke msg)).foldl c.combine c.identity := by
  constructor
  · intro h
    unfold multicast
    rw [h]
    rfl
  · unfold multicast
    exact foldl_combine_eq_foldl_map c (implementers o msg) msg c.identity

/-- Witness for C1: on an object with no mixins the multicast sum is the
sum identity 0, and on the three-mixin scenario object the multicast sum
is the fold of the implementers' results in attachment order. -/
theorem C1_multicast_identity_and_order_witness :
    multicast ⟨[]⟩ sumMsg sumCombinator = sumCombinator.identity ∧
    multicast scenario3 sumMsg sumCombinator
      = ((implementers scenario3 sumMsg).map (fun m => m.invoke sumMsg)).foldl
          sumCombinator.combine sumCombinator.identity :=
  ⟨(C1_multicast_identity_and_order ⟨[]⟩ sumMsg sumCombinator).1 (by decide),
   (C1_multicast_identity_and_order scenario3 sumMsg sumCombinator).2⟩

/-- C2 counterexample: in the scenario the claim describes (A contributing
1, B contributing 11, C contributing 12, then B detached), the multicast
sum after detaching B is 1 + 12 = 13, not the claimed 25; 25 also
contradicts the claim's own closing principle that the result equals the
sum of the currently attached implementers' contributions. -/
theorem C2_counterexample :
    multicast scenario4 sumMsg sumCombinator = 13 ∧
    multicast scenario4 sumMsg sumCombinator ≠ 25 := by
  constructor <;> decide

/-- C2 amended: on an object holding mixin A whose sum returns 1,
multicast(sum) = 1; after attaching B (sum 11), multicast(sum) = 12; after
attaching C (sum 12), multicast(sum) = 24; after detaching B,
multicast(sum) = 13; and in general the multicast result equals the sum of
the currently attached implementers' contributions, recomputed fresh on
every call (the dispatch is a pure function of the current mixin set, so
there is no caching drift). -/
theorem C2_amended_sum_scenario :
    multicast scenario1 sumMsg sumCombinator = 1 ∧
    multicast scenario2 sumMsg sumCombinator = 12 ∧
    multicast scenario3 sumMsg sumCombinator = 24 ∧
    multicast scenario4 sumMsg sumCombinator = 13 ∧
    ∀ o : Object, ∀ msg : Nat,
      multicast o msg sumCombinator = contributionSum o msg := by
  refine ⟨by decide, by decide, by decide, by decide, ?_⟩
  intro o msg
  exact multicast_sum_eq_contributionSum o msg

/-- C5: unicast dispatch with zero implementers among the object's
attached mixins fails with the unsupported-message condition, and unicast
dispatch with more than one implementer fails as ambiguous. -/
theorem C5_unicast_failures (o : Object) (msg : Nat) :
    ((implementers o msg).length = 0 →
      unicast o msg = .error .unsupportedMessage) ∧
    (1 < (implementers o msg).length →
      unicast o msg = .error .ambiguousMessage) := by
  constructor
  · intro h
    unfold unicast
    rw [List.length_eq_zero.mp h]
  · intro h
    unfold unicast
    match hi : implementers o msg with
    | [] => rw [hi] at h; simp at h
    | [m] => rw [hi] at h; simp at h
    | a :: b :: rest => rfl

/-- Witness for C5: a concrete object with zero implementers of one
message and two implementers of another exhibits both failure modes. -/
theorem C5_unicast_failures_witness :
    unicast scenario2 1 = .error .unsupportedMessage ∧
    unicast scenario2 sumMsg = .error .ambiguousMessage := by
  have h := C5_unicast_failures scenario2 1
  have h' := C5_unicast_failures scenario2 sumMsg
  exact ⟨h.1 (by decide), h'.2 (by decide)⟩

theorem le_alignUp (x a : Nat) (ha : 0 < a) : x ≤ alignUp x a := by
  unfold alignUp
  have h1 := Nat.div_add_mod (x + a - 1) a
  have h2 := Nat.mod_lt (x + a - 1) ha
  have h3 : (x + a - 1) / a * a = a * ((x + a - 1) / a) := Nat.mul_comm _ _
  rw [h3]
  omega

theorem alignUp_lt (x a : Nat) (ha : 0 < a) : alignUp x a < x + a := by
  unfold alignUp
  have h1 := Nat.div_add_mod (x + a - 1) a
  have h3 : (x + a - 1) / a * a = a * ((x + a - 1) / a) := Nat.mul_comm _ _
  rw [h3]
  omega

theorem alignUp_mod (x a : Nat) : alignUp x a % a = 0 := by
  unfold alignUp
  exact Nat.mul_mod_left _ _

/-- The computed offset puts the mixin on an address satisfying its
alignment. -/
theorem mixin_offset_aligned (buffer a : Nat) (ha : 0 < a) :
    (buffer + calculate_mixin_offset buffer a) % a = 0 := by
  have hle : buffer + ptrSize ≤ alignUp (buffer + ptrSize) a := le_alignUp _ _ ha
  have heq : buffer + calculate_mixin_offset buffer a = alignUp (buffer + ptrSize) a := by
    unfold calculate_mixin_offset
    omega
  rw [heq]
  exact alignUp_mod _ _

/-- The computed offset leaves at least a pointer-sized room in front of
the mixin. -/
theorem ptrSize_le_mixin_offset (buffer a : Nat) (ha : 0 < a) :
    ptrSize ≤ calculate_mixin_offset buffer a := by
  have hle : buffer + ptrSize ≤ alignUp (buffer + ptrSize) a := le_alignUp _ _ ha
  unfold calculate_mixin_offset
  omega

/-- The computed buffer size fits the mixin at the computed offset. -/
theorem mixin_offset_fits (buffer a size : Nat) (ha : 0 < a) :
    calculate_mixin_offset buffer a + size ≤ calculate_mem_size_for_mixin size a := by
  have hlt : alignUp (buffer + ptrSize) a < buffer + ptrSize + a := alignUp_lt _ _ ha
  unfold calculate_mixin_offset calculate_mem_size_for_mixin
  omega

/-- C3: for every mixin size, every positive alignment and every buffer
address, the helper computations — pure functions of their arguments,
independent of any allocation strategy — produce an offset that satisfies
the alignment, leaves at least a pointer-sized gap in front for the
back-reference to the owning object, and a total buffer size that fits
the mixin instance starting at that offset. -/
theorem C3_helper_computations (mixin_size mixin_alignment buffer : Nat)
    (ha : 0 < mixin_alignment) :
    (buffer + calculate_mixin_offset buffer mixin_alignment) % mixin_alignment = 0 ∧
    ptrSize ≤ calculate_mixin_offset buffer mixin_alignment ∧
    calculate_mixin_offset buffer mixin_alignment + mixin_size
      ≤ calculate_mem_size_for_mixin mixin_size mixin_alignment :=
  ⟨mixin_offset_aligned buffer mixin_alignment ha,
   ptrSize_le_mixin_offset buffer mixin_alignment ha,
   mixin_offset_fits buffer mixin_alignment mixin_size ha⟩

/-- Witness for C3 at size 24, alignment 16, buffer address 1000: the
offset is 16 (address 1016 is 16-aligned, with 16 ≥ 8 bytes of room in
front) and the computed size 47 fits 16 + 24 = 40. -/
theorem C3_helper_computations_witness :
    0 < 16 ∧
    ((1000 + calculate_mixin_offset 1000 16) % 16 = 0 ∧
      ptrSize ≤ calculate_mixin_offset 1000 16 ∧
      calculate_mixin_offset 1000 16 + 24 ≤ calculate_mem_size_for_mixin 24 16) :=
  ⟨by decide, C3_helper_computations 24 16 1000 (by decide)⟩

/-- C4: a mutation request that fails — adding an unregistered mixin
identifier or removing a mixin that is not attached — leaves the whole
world (the object's mixin set, all attached mixins' recorded state, and
the strategy-call trace) exactly as it was before the call. -/
theorem C4_failed_mutation_is_noop (reg : Registry) (w : World) (op : MutOp)
    (err : DynErr) (h : (applyOp reg w op).1 = some err) :
    (applyOp reg w op).2 = w := by
  cases op with
  | add id arrBuf mixBuf =>
      cases hl : lookupMixin reg id with
      | none => simp [applyOp, addMixinOp, hl]
      | some e =>
          simp only [applyOp, addMixinOp, hl] at h
          simp at h
  | remove id arrBuf =>
      cases hf : w.obj.mixins.find? (fun e => e.id == id) with
      | none => simp [applyOp, removeMixinOp, hf]
      | some e =>
          simp only [applyOp, removeMixinOp, hf] at h
          simp at h

/-- Witness for C4: adding mixin id 5 (unregistered in the example
registry) to a fresh object fails with unknown-mixin and changes
nothing; removing mixin id 0 from the fresh object (which has no mixins)
fails with mixin-not-present and changes nothing. -/
theorem C4_failed_mutation_is_noop_witness :
    (applyOp regExample (freshWorld 42) (.add 5 100 200)).2 = freshWorld 42 ∧
    (applyOp regExample (freshWorld 42) (.remove 0 100)).2 = freshWorld 42 :=
  ⟨C4_failed_mutation_is_noop regExample (freshWorld 42) (.add 5 100 200)
      .unknownMixin (by decide),
   C4_failed_mutation_is_noop regExample (freshWorld 42) (.remove 0 100)
      .mixinNotPresent (by decide)⟩

theorem find_filter_none {α : Type} (idf mf : α → Nat) (l : List α) (id m : Nat)
    (h : ∀ e ∈ l, idf e = id → mf e = m) :
    (l.filter (fun e => mf e != m)).find? (fun e => idf e == id) = none := by
  induction l with
  | nil => rfl
  | cons x xs ih =>
      have hx := h x (List.mem_cons_self x xs)
      have hxs := fun e he => h e (List.mem_cons_of_mem _ he)
      rw [List.filter_cons]
      by_cases hm : mf x = m
      · simp only [hm, bne_self_eq_false, if_false]
        exact ih hxs
      · have hid : idf x ≠ id := fun hh => hm (hx hh)
        simp only [bne_iff_ne, ne_eq, hm, not_false_eq_true, if_true]
        rw [List.find?_cons_of_neg _ (by simp [hid])]
        exact ih hxs

theorem find_filter_same {α : Type} (idf mf : α → Nat) (l : List α) (id m : Nat)
    (h : ∀ e ∈ l, idf e = id → mf e ≠ m) :
    (l.filter (fun e => mf e != m)).find? (fun e => idf e == id)
      = l.find? (fun e => idf e == id) := by
  induction l with
  | nil => rfl
  | cons x xs ih =>
      have hx := h x (List.mem_cons_self x xs)
      have hxs := fun e he => h e (List.mem_cons_of_mem _ he)
      rw [List.filter_cons]
      by_cases hm : mf x = m
      · have hid : idf x ≠ id := fun hh => hx hh hm
        simp only [hm, bne_self_eq_false, if_false]
        rw [List.find?_cons_of_neg _ (by simp [hid])]
        exact ih hxs
      · simp only [bne_iff_ne, ne_eq, hm, not_false_eq_true, if_true]
        by_cases hid : idf x = id
        · rw [List.find?_cons_of_pos _ (by simp [hid]),
              List.find?_cons_of_pos _ (by simp [hid])]
        · rw [List.find?_cons_of_neg _ (by simp [hid]),
              List.find?_cons_of_neg _ (by simp [hid])]
          exact ih hxs

/-- C6: after a module's mixins and messages are unregistered (module
unload), every lookup of a mixin identifier that had been supplied (only)
by that module reports the unknown-mixin condition and every dispatch of
a message identifier supplied (only) by that module reports the
unsupported-message condition, while registry lookups and dispatch of
identifiers supplied by other modules are exactly as before the
unload. -/
theorem C6_module_unload (reg : Registry) (m : Nat) :
    (∀ id, (∀ e ∈ reg.mixins, e.id = id → e.moduleId = m) →
      lookupMixinE (unloadModule reg m) id = .error .unknownMixin) ∧
    (∀ msg, (∀ e ∈ reg.messages, e.id = msg → e.moduleId = m) →
      ∀ o : Object, unicastR (unloadModule reg m) o msg = .error .unsupportedMessage) ∧
    (∀ id, (∀ e ∈ reg.mixins, e.id = id → e.moduleId ≠ m) →
      lookupMixinE (unloadModule reg m) id = lookupMixinE reg id) ∧
    (∀ msg, (∀ e ∈ reg.messages, e.id = msg → e.moduleId ≠ m) →
      ∀ o : Object, unicastR (unloadModule reg m) o msg = unicastR reg o msg) := by
  refine ⟨?_, ?_, ?_, ?_⟩
  · intro id h
    unfold lookupMixinE lookupMixin unloadModule
    rw [find_filter_none (fun e => e.id) (fun e => e.moduleId) reg.mixins id m h]
  · intro msg h o
    unfold unicastR messageRegistered unloadModule
    rw [find_filter_none (fun e => e.id) (fun e => e.moduleId) reg.messages msg m h]
    rfl
  · intro id h
    unfold lookupMixinE lookupMixin unloadModule
    rw [find_filter_same (fun e => e.id) (fun e => e.moduleId) reg.mixins id m h]
  · intro msg h o
    unfold unicastR messageRegistered unloadModule
    rw [find_filter_same (fun e => e.id) (fun e => e.moduleId) reg.messages msg m h]

/-- Witness for C6 on the two-module example registry, unloading
module 2: mixin id 1 and message id 1 (from module 2) now report
unknown-mixin and unsupported-message, while mixin id 0 and message id 0
(from module 1) look up and dispatch exactly as before. -/
theorem C6_module_unload_witness :
    lookupMixinE (unloadModule regExample 2) 1 = .error .unknownMixin ∧
    unicastR (unloadModule regExample 2) scenario1 1 = .error .unsupportedMessage ∧
    lookupMixinE (unloadModule regExample 2) 0 = lookupMixinE regExample 0 ∧
    unicastR (unloadModule regExample 2) scenario1 0 = unicastR regExample scenario1 0 := by
  have h := C6_module_unload regExample 2
  exact ⟨h.1 1 (by decide), h.2.1 1 (by decide) scenario1,
         h.2.2.1 0 (by decide), h.2.2.2 0 (by decide) scenario1⟩

theorem mem_removeFirst (id : Nat) (l : List MixinData) (x : MixinData)
    (h : x ∈ removeFirst id l) : x ∈ l := by
  induction l with
  | nil => exact absurd h (by simp [removeFirst])
  | cons e es ih =>
      by_cases he : e.id = id
      · rw [removeFirst, if_pos he] at h
        exact List.mem_cons_of_mem _ h
      · rw [removeFirst, if_neg he] at h
        rcases List.mem_cons.mp h with h | h
        · exact h ▸ List.mem_cons_self _ _
        · exact List.mem_cons_of_mem _ (ih h)

theorem length_removeFirst (id : Nat) (l : List MixinData) (e : MixinData)
    (h : l.find? (fun x => x.id == id) = some e) :
    (removeFirst id l).length + 1 = l.length := by
  induction l with
  | nil => simp [List.find?] at h
  | cons x xs ih =>
      by_cases hx : x.id = id
      · rw [removeFirst, if_pos hx]
        simp
      · rw [List.find?_cons_of_neg _ (by simp [hx])] at h
        rw [removeFirst, if_neg hx]
        have := ih h
        simp only [List.length_cons]
        omega

/-- A successful mutation step preserves the storage invariant, keeps the
object's address, and changes the mixin count by exactly one in the
direction of the request. -/
theorem applyOp_success (reg : Registry) (w : World) (op : MutOp)
    (hwf : ∀ e ∈ reg.mixins, 0 < e.alignment)
    (hg : ∀ e ∈ w.obj.mixins, goodEntry w.obj.objAddr e)
    (hs : (applyOp reg w op).1 = none) :
    (applyOp reg w op).2.obj.objAddr = w.obj.objAddr ∧
    (applyOp reg w op).2.obj.mixins.length + countRemoves [op]
      = w.obj.mixins.length + countAdds [op] ∧
    ∀ e ∈ (applyOp reg w op).2.obj.mixins, goodEntry w.obj.objAddr e := by
  cases op with
  | add id arrBuf mixBuf =>
      cases hl : lookupMixin reg id with
      | none => simp [applyOp, addMixinOp, hl] at hs
      | some entry =>
          have hmem : entry ∈ reg.mixins := List.mem_of_find?_eq_some hl
          have ha : 0 < entry.alignment := hwf entry hmem
          simp only [applyOp, addMixinOp, hl]
          refine ⟨by trivial, by simp [countAdds, countRemoves], ?_⟩
          intro e he
          simp only [List.mem_append, List.mem_singleton] at he
          cases he with
          | inl he => exact hg e he
          | inr he =>
              subst he
              exact ⟨ha, mixin_offset_aligned _ _ ha,
                     ptrSize_le_mixin_offset _ _ ha, rfl⟩
  | remove id arrBuf =>
      cases hf : w.obj.mixins.find? (fun x => x.id == id) with
      | none => simp [applyOp, removeMixinOp, hf] at hs
      | some e0 =>
          simp only [applyOp, removeMixinOp, hf]
          have hlen := length_removeFirst id w.obj.mixins e0 hf
          refine ⟨by trivial, ?_, ?_⟩
          · simp only [countAdds, countRemoves]
            omega
          · intro e he
            exact hg e (mem_removeFirst id _ e he)

/-- Running a sequence of successful mutation requests preserves the
storage invariant and accounts every add and remove in the final mixin
count. -/
theorem runOps_invariant (reg : Registry)
    (hwf : ∀ e ∈ reg.mixins, 0 < e.alignment) (ops : List MutOp) :
    ∀ w : World, (∀ e ∈ w.obj.mixins, goodEntry w.obj.objAddr e) →
    (runOps reg w ops).1 = none →
    (runOps reg w ops).2.obj.objAddr = w.obj.objAddr ∧
    (runOps reg w ops).2.obj.mixins.length + countRemoves ops
      = w.obj.mixins.length + countAdds ops ∧
    ∀ e ∈ (runOps reg w ops).2.obj.mixins, goodEntry w.obj.objAddr e := by
  induction ops with
  | nil =>
      intro w hg _
      exact ⟨rfl, by simp [runOps, countAdds, countRemoves],
             by simpa [runOps] using hg⟩
  | cons op ops ih =>
      intro w hg hrun
      cases happ : applyOp reg w op with
      | mk r w' =>
        cases r with
        | some err =>
            simp only [runOps, happ] at hrun
            simp at hrun
        | none =>
            have hstep := applyOp_success reg w op hwf hg (by rw [happ])
            rw [happ] at hstep
            simp only at hstep
            simp only [runOps, happ] at hrun ⊢
            have hg' : ∀ e ∈ w'.obj.mixins, goodEntry w'.obj.objAddr e := by
              rw [hstep.1]
              exact hstep.2.2
            have hmain := ih w' hg' hrun
            refine ⟨by rw [hmain.1, hstep.1], ?_, ?_⟩
            · have h1 := hmain.2.1
              have h2 := hstep.2.1
              cases op <;> simp only [countAdds, countRemoves] at h2 ⊢ <;> omega
            · intro e he
              have := hmain.2.2 e he
              rwa [hstep.1] at this

/-- C7: for every finite sequence of successful add/remove mixin requests
on a fresh object, the number of attached mixins afterwards equals the
number of additions minus the number of removals (stated without
truncated subtraction: final count plus removals equals additions), and
every still-attached mixin's storage address satisfies the mixin's
declared positive alignment, leaves a pointer-sized room in front, and
its back-pointer holds the owning object's address. -/
theorem C7_mutation_sequence_invariants (reg : Registry) (objAddr : Nat)
    (ops : List MutOp)
    (hwf : ∀ e ∈ reg.mixins, 0 < e.alignment)
    (hs : (runOps reg (freshWorld objAddr) ops).1 = none) :
    (runOps reg (freshWorld objAddr) ops).2.obj.mixins.length + countRemoves ops
      = countAdds ops ∧
    ∀ e ∈ (runOps reg (freshWorld objAddr) ops).2.obj.mixins,
      goodEntry objAddr e := by
  have h := runOps_invariant reg hwf ops (freshWorld objAddr)
      (by simp [freshWorld]) hs
  refine ⟨?_, ?_⟩
  · have := h.2.1
    simpa [freshWorld] using this
  · intro e he
    have := h.2.2 e he
    simpa [freshWorld] using this

/-- Witness for C7: on the example registry, adding mixins 0 and 1 and
then removing mixin 0 succeeds and leaves 2 + 1 = 1 + 2 balanced, with
every remaining mixin satisfying the storage invariant. -/
theorem C7_mutation_sequence_invariants_witness :
    ((runOps regExample (freshWorld 42)
        [.add 0 96 200, .add 1 104 304, .remove 0 112]).2.obj.mixins.length
      + countRemoves [.add 0 96 200, .add 1 104 304, .remove 0 112]
      = countAdds [.add 0 96 200, .add 1 104 304, .remove 0 112]) ∧
    ∀ e ∈ (runOps regExample (freshWorld 42)
        [.add 0 96 200, .add 1 104 304, .remove 0 112]).2.obj.mixins,
      goodEntry 42 e :=
  C7_mutation_sequence_invariants regExample 42
    [.add 0 96 200, .add 1 104 304, .remove 0 112]
    (by decide) (by decide)

theorem matchedFrom_of_all (past evs : List Event)
    (h : ∀ ev ∈ evs, ∀ e, matchingAlloc ev = some e → e ∈ past) :
    matchedFrom past evs = true := by
  induction evs generalizing past with
  | nil => rfl
  | cons ev rest ih =>
      rw [matchedFrom, Bool.and_eq_true]
      constructor
      · cases hm : matchingAlloc ev with
        | none => simp [matchOk, hm]
        | some e =>
            simp only [matchOk, hm]
            exact List.elem_iff.mpr (h ev (List.mem_cons_self _ _) e hm)
      · exact ih (past ++ [ev]) (fun ev' hm' e he =>
          List.mem_append_left _ (h ev' (List.mem_cons_of_mem _ hm') e he))

theorem matchedFrom_append (past tr evs : List Event)
    (h1 : matchedFrom past tr = true)
    (h2 : ∀ ev ∈ evs, ∀ e, matchingAlloc ev = some e → e ∈ past ++ tr) :
    matchedFrom past (tr ++ evs) = true := by
  induction tr generalizing past with
  | nil =>
      simp only [List.nil_append] at h2 ⊢
      exact matchedFrom_of_all past evs (by simpa using h2)
  | cons t ts ih =>
      rw [List.cons_append, matchedFrom, Bool.and_eq_true]
      rw [matchedFrom, Bool.and_eq_true] at h1
      refine ⟨h1.1, ?_⟩
      apply ih (past ++ [t]) h1.2
      intro ev hm e he
      have hmem := h2 ev hm e he
      simpa [List.append_assoc] using hmem

theorem find?_some_ne_nil {l : List MixinData} {p : MixinData → Bool}
    {e : MixinData} (h : l.find? p = some e) : l ≠ [] := by
  intro hl
  rw [hl] at h
  simp at h

/-- A mutation step — successful or failed — keeps the trace matched,
keeps an allocation event on record for every attached mixin's storage,
and keeps an allocation event on record for the current mixin-data
array. -/
theorem applyOp_trace (reg : Registry) (w : World) (op : MutOp)
    (h1 : matchedFrom [] w.trace = true)
    (h2 : ∀ e ∈ w.obj.mixins,
      Event.allocMixin e.buffer e.offset e.id e.size e.alignment ∈ w.trace)
    (h3 : w.obj.mixins ≠ [] →
      Event.allocData w.obj.arrBuf w.obj.mixins.length ∈ w.trace) :
    matchedFrom [] (applyOp reg w op).2.trace = true ∧
    (∀ e ∈ (applyOp reg w op).2.obj.mixins,
      Event.allocMixin e.buffer e.offset e.id e.size e.alignment
        ∈ (applyOp reg w op).2.trace) ∧
    ((applyOp reg w op).2.obj.mixins ≠ [] →
      Event.allocData (applyOp reg w op).2.obj.arrBuf
          (applyOp reg w op).2.obj.mixins.length
        ∈ (applyOp reg w op).2.trace) := by
  cases op with
  | add id arrBuf mixBuf =>
      cases hl : lookupMixin reg id with
      | none =>
          simp only [applyOp, addMixinOp, hl]
          exact ⟨h1, h2, h3⟩
      | some entry =>
          have hbatch : ∀ ev ∈
              ([Event.allocData arrBuf (w.obj.mixins.length + 1),
                Event.allocMixin mixBuf (calculate_mixin_offset mixBuf entry.alignment)
                  id entry.size entry.alignment] ++
               (if w.obj.mixins.length = 0 then []
                else [Event.deallocData w.obj.arrBuf w.obj.mixins.length])),
              ∀ e, matchingAlloc ev = some e → e ∈ w.trace := by
            intro ev hm e he
            rcases List.mem_append.mp hm with hm | hm
            · rcases List.mem_cons.mp hm with rfl | hm
              · simp [matchingAlloc] at he
              · rcases List.mem_cons.mp hm with rfl | hm
                · simp [matchingAlloc] at he
                · simp at hm
            · by_cases hn : w.obj.mixins.length = 0
              · rw [if_pos hn] at hm
                simp at hm
              · rw [if_neg hn] at hm
                rcases List.mem_cons.mp hm with rfl | hm
                · simp only [matchingAlloc, Option.some.injEq] at he
                  subst he
                  exact h3 (fun hx => hn (by simp [hx]))
                · simp at hm
          simp only [applyOp, addMixinOp, hl]
          refine ⟨?_, ?_, ?_⟩
          · apply matchedFrom_append [] w.trace _ h1
            intro ev hm e he
            simp only [List.nil_append]
            exact hbatch ev hm e he
          · intro e he
            rcases List.mem_append.mp he with he | he
            · exact List.mem_append_left _ (h2 e he)
            · rcases List.mem_cons.mp he with rfl | he
              · apply List.mem_append_right
                apply List.mem_append_left
                simp
              · simp at he
          · intro _
            apply List.mem_append_right
            apply List.mem_append_left
            simp only [List.length_append, List.length_cons, List.length_nil]
            simp
  | remove id arrBuf =>
      cases hf : w.obj.mixins.find? (fun e => e.id == id) with
      | none =>
          simp only [applyOp, removeMixinOp, hf]
          exact ⟨h1, h2, h3⟩
      | some e0 =>
          have hmem0 : e0 ∈ w.obj.mixins := List.mem_of_find?_eq_some hf
          have hnil : w.obj.mixins ≠ [] := find?_some_ne_nil hf
          have harr := h3 hnil
          have hal0 := h2 e0 hmem0
          have hbatch : ∀ ev ∈
              ([Event.deallocMixin e0.buffer e0.offset e0.id e0.size e0.alignment] ++
               (if (removeFirst id w.obj.mixins).length = 0 then []
                else [Event.allocData arrBuf (removeFirst id w.obj.mixins).length]) ++
               [Event.deallocData w.obj.arrBuf w.obj.mixins.length]),
              ∀ e, matchingAlloc ev = some e → e ∈ w.trace := by
            intro ev hm e he
            rcases List.mem_append.mp hm with hm | hm
            · rcases List.mem_append.mp hm with hm | hm
              · rcases List.mem_cons.mp hm with rfl | hm
                · simp only [matchingAlloc, Option.some.injEq] at he
                  subst he
                  exact hal0
                · simp at hm
              · by_cases hz : (removeFirst id w.obj.mixins).length = 0
                · rw [if_pos hz] at hm
                  simp at hm
                · rw [if_neg hz] at hm
                  rcases List.mem_cons.mp hm with rfl | hm
                  · simp [matchingAlloc] at he
                  · simp at hm
            · rcases List.mem_cons.mp hm with rfl | hm
              · simp only [matchingAlloc, Option.some.injEq] at he
                subst he
                exact harr
              · simp at hm
          simp only [applyOp, removeMixinOp, hf]
          refine ⟨?_, ?_, ?_⟩
          · apply matchedFrom_append [] w.trace _ h1
            intro ev hm e he
            simp only [List.nil_append]
            exact hbatch ev hm e he
          · intro e he
            exact List.mem_append_left _
              (h2 e (mem_removeFirst id w.obj.mixins e he))
          · intro hne
            have hz : (removeFirst id w.obj.mixins).length ≠ 0 := by
              intro hz
              exact hne (List.length_eq_zero.mp hz)
            apply List.mem_append_right
            apply List.mem_append_left
            apply List.mem_append_right
            rw [if_neg hz]
            simp

/-- Running any sequence of mutation requests keeps the trace matched
(along with the bookkeeping the induction needs). -/
theorem runOps_trace (reg : Registry) (ops : List MutOp) :
    ∀ w : World,
    matchedFrom [] w.trace = true →
    (∀ e ∈ w.obj.mixins,
      Event.allocMixin e.buffer e.offset e.id e.size e.alignment ∈ w.trace) →
    (w.obj.mixins ≠ [] →
      Event.allocData w.obj.arrBuf w.obj.mixins.length ∈ w.trace) →
    matchedFrom [] (runOps reg w ops).2.trace = true := by
  induction ops with
  | nil =>
      intro w h1 _ _
      simpa [runOps] using h1
  | cons op ops ih =>
      intro w h1 h2 h3
      have hstep := applyOp_trace reg w op h1 h2 h3
      cases happ : applyOp reg w op with
      | mk r w' =>
        rw [happ] at hstep
        simp only at hstep
        cases r with
        | some err =>
            simp only [runOps, happ]
            exact hstep.1
        | none =>
            simp only [runOps, happ]
            exact ih w' hstep.1 hstep.2.1 hstep.2.2

/-- C8: in every run of mutation requests on a fresh object, every
deallocation call the runtime makes into the allocation strategy repeats
the arguments of an earlier allocation call exactly: each
`dealloc_mixin_data` call carries the same buffer and element count as
the matching `alloc_mixin_data` call, and each `dealloc_mixin` call
carries the same buffer, offset, mixin id, size and alignment as the
matching `alloc_mixin` call. -/
theorem C8_dealloc_repeats_alloc (reg : Registry) (objAddr : Nat)
    (ops : List MutOp) :
    traceMatched (runOps reg (freshWorld objAddr) ops).2.trace = true := by
  unfold traceMatched
  apply runOps_trace reg ops (freshWorld objAddr)
  · rfl
  · intro e he
    simp [freshWorld] at he
  · intro h
    simp [freshWorld] at h

/-- C9: every mixin identifier in a registry the runtime can reach is
strictly below the configured maximum mixin count (256 in this
configuration) and every message identifier is strictly below the
configured maximum message count (512), so indexing the fixed-size lookup
tables those maxima bound is always in range. -/
theorem C9_identifier_bounds (reg : Registry) (h : Reachable reg) :
    (∀ e ∈ reg.mixins, e.id < DYNAMIX_MAX_MIXINS) ∧
    (∀ e ∈ reg.messages, e.id < DYNAMIX_MAX_MESSAGES) := by
  induction h with
  | empty => exact ⟨by simp, by simp⟩
  | @regMixin r r' m s a impl hr hstep ih =>
      unfold registerMixinEntry at hstep
      by_cases hlen : r.mixins.length < DYNAMIX_MAX_MIXINS
      · rw [if_pos hlen] at hstep
        injection hstep with hstep
        subst hstep
        refine ⟨?_, ih.2⟩
        intro e he
        rcases List.mem_append.mp he with he | he
        · exact ih.1 e he
        · rcases List.mem_cons.mp he with rfl | he
          · exact hlen
          · simp at he
      · rw [if_neg hlen] at hstep
        cases hstep
  | @regMsg r r' m hr hstep ih =>
      unfold registerMessageEntry at hstep
      by_cases hlen : r.messages.length < DYNAMIX_MAX_MESSAGES
      · rw [if_pos hlen] at hstep
        injection hstep with hstep
        subst hstep
        refine ⟨ih.1, ?_⟩
        intro e he
        rcases List.mem_append.mp he with he | he
        · exact ih.2 e he
        · rcases List.mem_cons.mp he with rfl | he
          · exact hlen
          · simp at he
      · rw [if_neg hlen] at hstep
        cases hstep
  | unload hr ih =>
      refine ⟨?_, ?_⟩
      · intro e he
        exact ih.1 e (List.mem_of_mem_filter he)
      · intro e he
        exact ih.2 e (List.mem_of_mem_filter he)

/-- Witness for C9: the registry obtained by registering one mixin and
one message into the empty registry is reachable and respects both
bounds. -/
theorem C9_identifier_bounds_witness :
    (∀ e ∈ regSmall.mixins, e.id < DYNAMIX_MAX_MIXINS) ∧
    (∀ e ∈ regSmall.messages, e.id < DYNAMIX_MAX_MESSAGES) := by
  have h1 : Reachable (⟨[⟨0, 1, 16, 8, []⟩], []⟩ : Registry) :=
    @Reachable.regMixin ⟨[], []⟩ ⟨[⟨0, 1, 16, 8, []⟩], []⟩ 1 16 8 []
      Reachable.empty (by decide)
  have h2 : Reachable regSmall :=
    @Reachable.regMsg ⟨[⟨0, 1, 16, 8, []⟩], []⟩ regSmall 1 h1 (by decide)
  exact C9_identifier_bounds regSmall h2

theorem lookup_append_some (ty : String) (i : Nat) (l l2 : List (String × Nat))
    (h : l.lookup ty = some i) : (l ++ l2).lookup ty = some i := by
  induction l with
  | nil => simp [List.lookup] at h
  | cons p ps ih =>
      obtain ⟨k, v⟩ := p
      rw [List.cons_append]
      simp only [List.lookup] at h ⊢
      cases hk : (ty == k) with
      | true =>
          rw [hk] at h
          simpa using h
      | false =>
          rw [hk] at h
          exact ih h

theorem lookup_append_self (ty : String) (v : Nat) (l : List (String × Nat))
    (h : l.lookup ty = none) : (l ++ [(ty, v)]).lookup ty = some v := by
  induction l with
  | nil => simp [List.lookup]
  | cons p ps ih =>
      obtain ⟨k, w⟩ := p
      rw [List.cons_append]
      simp only [List.lookup] at h ⊢
      cases hk : (ty == k) with
      | true =>
          rw [hk] at h
          simp at h
      | false =>
          rw [hk] at h
          exact ih h

/-- A call for a type whose static is already initialized returns the
recorded instance and leaves the state untouched. -/
theorem allocator_stable (ty : String) (s : ProcState) (i : Nat)
    (h : s.instances.lookup ty = some i) : allocator ty s = (i, s) := by
  unfold allocator
  rw [h]

/-- After any call of the entry function, the first call's instance for a
type stays recorded. -/
theorem allocator_lookup (ty ty' : String) (s : ProcState) (i : Nat)
    (h : s.instances.lookup ty = some i) :
    (allocator ty' s).2.instances.lookup ty = some i := by
  unfold allocator
  cases hl : s.instances.lookup ty' with
  | some j => simpa using h
  | none =>
      simp only
      exact lookup_append_some ty i _ _ h

/-- The first call records the instance it returns. -/
theorem allocator_first (ty : String) (s : ProcState) :
    (allocator ty s).2.instances.lookup ty = some (allocator ty s).1 := by
  unfold allocator
  cases hl : s.instances.lookup ty with
  | some j => simpa using hl
  | none =>
      simp only
      exact lookup_append_self ty s.nextId _ hl

/-- Any sequence of calls of the entry function keeps a recorded instance
recorded. -/
theorem runCalls_lookup (ty : String) (i : Nat) (tys : List String) :
    ∀ s : ProcState, s.instances.lookup ty = some i →
    (runCalls tys s).instances.lookup ty = some i := by
  induction tys with
  | nil =>
      intro s h
      simpa [runCalls] using h
  | cons t ts ih =>
      intro s h
      simp only [runCalls, List.foldl_cons]
      exact ih _ (allocator_lookup ty t s i h)

/-- C10: the feature-list entry function `dynamix::allocator<T>()` is a
per-type singleton: after any first call for a type, every later call for
that type — with arbitrarily many calls for other types in between —
returns the identical allocator instance and does not change the process
state, so the allocate-through-A / deallocate-through-A discipline holds
for mixins configured through it. -/
theorem C10_allocator_singleton (ty : String) (s : ProcState) (tys : List String) :
    allocator ty (runCalls tys (allocator ty s).2)
      = ((allocator ty s).1, runCalls tys (allocator ty s).2) := by
  have h0 := allocator_first ty s
  have h1 := runCalls_lookup ty (allocator ty s).1 tys (allocator ty s).2 h0
  exact allocator_stable ty _ _ h1

end Dynamix
